import Mathlib

set_option linter.unusedVariables false

/-!
Shallow embedding of the `ReactiveEventSystem` TypeScript class (the event bus
of the reactive-event-system repository) together with proofs about its
behaviour.

Modelling conventions:

* Function identities (listeners, middleware) are opaque numeric ids (`Nat`);
  JS function equality is reference identity, which ids capture exactly.
* A JS `Set` of functions is an insertion-ordered duplicate-free `List Nat`;
  a JS `Map<string, Set>` is an association list in key-insertion order.
* Payloads are modelled as `Nat` (the bus never inspects payloads).
* The reactive layer of the source (`reactive`, `batch`, `effect`, the
  `reactiveEffects` WeakMap and `setupReactiveEffect` / `cleanupReactiveEffect`)
  coalesces change notifications and has no effect on any value observable
  through the public API; the metrics record is therefore modelled as plain
  fields of the bus state, and the effect bookkeeping is omitted.  The private
  `computedMetrics` map is kept (as the list of keys the constructor populates)
  because one claim is about it.
* `errorHandler` is modelled by a boolean `hasErrorHandler` plus an emission
  log recording every handler invocation `(event, listener)` and every
  diagnostic `console.error` line, since the handler itself is opaque.
* Listener callbacks may perform bus operations.  The environment `LEnv` gives
  each listener id a behaviour: a list of `once` registrations it performs and
  whether it then throws.  This covers the behaviours the verified claims
  quantify over (re-subscription during a callback, throwing listeners);
  callbacks in this scope do not mutate the persistent sets, so iterating the
  live `events` set of the source coincides with iterating its snapshot.
* Middleware behaviour is an environment `MwEnv` mapping a middleware id and
  the current payload to: a non-nullish return value, a nullish return
  (`undefined`/`null`, which the source treats as no replacement), or a throw.
-/

namespace RES

abbrev EventName := String

abbrev Val := Nat

/-- A JS `Set` of function identities: insertion-ordered, duplicate-free. -/
abbrev IdSet := List Nat

/-- `Set.prototype.add`: appends when absent; re-adding is a no-op. -/
def setAdd (l : IdSet) (x : Nat) : IdSet :=
  if x ∈ l then l else l ++ [x]

/-- `Set.prototype.delete`: removes the identity, keeping the order of the rest. -/
def setDel (l : IdSet) (x : Nat) : IdSet :=
  l.filter (fun y => y ≠ x)

/-- `Map.get` followed by reading the stored set; an absent key reads as empty. -/
def mapGet (m : List (EventName × IdSet)) (k : EventName) : IdSet :=
  match m with
  | [] => []
  | p :: ps => if p.1 = k then p.2 else mapGet ps k

/-- `Map.has`. -/
def mapHas (m : List (EventName × IdSet)) (k : EventName) : Bool :=
  match m with
  | [] => false
  | p :: ps => if p.1 = k then true else mapHas ps k

/-- `Map.set`: updates the entry in place when the key is present (key order is
kept), else appends a new entry. -/
def mapSet (m : List (EventName × IdSet)) (k : EventName) (v : IdSet) : List (EventName × IdSet) :=
  match m with
  | [] => [(k, v)]
  | p :: ps => if p.1 = k then (k, v) :: ps else p :: mapSet ps k v

/-- `Map.delete`: drops the key together with its entry. -/
def mapDel (m : List (EventName × IdSet)) (k : EventName) : List (EventName × IdSet) :=
  match m with
  | [] => []
  | p :: ps => if p.1 = k then mapDel ps k else p :: mapDel ps k

/-- Lookup of the `_originalListener` property that `once` defines on its
wrapper; a wrapper that never got the property reads as itself (irrelevant for
wrappers actually created by `once`). -/
def origLookup (t : List (Nat × Nat)) (w : Nat) : Nat :=
  match t with
  | [] => w
  | p :: ps => if p.1 = w then p.2 else origLookup ps w

/-- Filling a JS `Set` in order: keep an element when it was not seen yet. -/
def dedupAux (seen : List EventName) : List EventName → List EventName
  | [] => []
  | x :: xs => if x ∈ seen then dedupAux seen xs else x :: dedupAux (x :: seen) xs

/-- First-occurrence deduplication, as produced by filling a JS `Set` and
converting it back to an array (`eventNames`). -/
def dedupFirst (l : List EventName) : List EventName :=
  dedupAux [] l

/-- The state of one `ReactiveEventSystem` instance.  `events`, `onceEvents`
and `middleware` are the three private maps; `onceOrig` records the
`_originalListener` property of each once-wrapper; the four counters are the
fields of the reactive state record; `computedMetrics` holds the keys of the
private computed-metrics map; `hasErrorHandler` says whether an error handler
was configured at construction. -/
structure BusState where
  events : List (EventName × IdSet)
  onceEvents : List (EventName × IdSet)
  onceOrig : List (Nat × Nat)
  middleware : List (EventName × IdSet)
  computedMetrics : List String
  totalEventsEmitted : Nat
  lastEmittedEvent : Option EventName
  activeListeners : Nat
  errorCount : Nat
  hasErrorHandler : Bool
deriving DecidableEq

/-- The constructor: empty maps, zeroed counters; `enableMetrics` populates the
computed-metrics map with its two entries, `setupMetrics`. -/
def initState (enableMetrics : Bool) (errHandler : Bool) : BusState :=
  { events := []
    onceEvents := []
    onceOrig := []
    middleware := []
    computedMetrics := if enableMetrics then ["eventRate", "errorRate"] else []
    totalEventsEmitted := 0
    lastEmittedEvent := none
    activeListeners := 0
    errorCount := 0
    hasErrorHandler := errHandler }

/-- The sum, over all events, of persistent-set size plus once-set size (the
loop body of the private `updateMetrics`). -/
def totalListenerCount (s : BusState) : Nat :=
  (s.events.map (fun p => p.2.length)).sum + (s.onceEvents.map (fun p => p.2.length)).sum

/-- Private `updateMetrics`: recompute `activeListeners`. -/
def updateMetrics (s : BusState) : BusState :=
  { s with activeListeners := totalListenerCount s }

/-- `on(event, listener)`: ensure the per-event set exists, add the listener,
then `updateMetrics`.  (The `typeof listener` check cannot fail for ids, and
the optional reactive effect has no observable behaviour.  Named with a tick
because `on` is reserved in Lean.) -/
def on' (e : EventName) (l : Nat) (s : BusState) : BusState :=
  let m := if mapHas s.events e then s.events else mapSet s.events e []
  updateMetrics { s with events := mapSet m e (setAdd (mapGet m e) l) }

/-- `once(event, listener)`: create a wrapper (a fresh identity `w`) carrying
`_originalListener := l`, store the wrapper in the once set, then
`updateMetrics`. -/
def once (e : EventName) (w l : Nat) (s : BusState) : BusState :=
  let m := if mapHas s.onceEvents e then s.onceEvents else mapSet s.onceEvents e []
  updateMetrics
    { s with
      onceEvents := mapSet m e (setAdd (mapGet m e) w)
      onceOrig := s.onceOrig ++ [(w, l)] }

/-- `off(event, listener)`: delete the given identity from both per-event sets
(an absent key or member is a no-op, and the key itself is never removed),
then `updateMetrics`.  Note that the source never consults the
`_originalListener` back-reference here. -/
def off (e : EventName) (l : Nat) (s : BusState) : BusState :=
  let ev := if mapHas s.events e then mapSet s.events e (setDel (mapGet s.events e) l) else s.events
  let oc := if mapHas s.onceEvents e then mapSet s.onceEvents e (setDel (mapGet s.onceEvents e) l) else s.onceEvents
  updateMetrics { s with events := ev, onceEvents := oc }

/-- `removeAllListeners(event?)`: clear one event's entries or all entries,
then `updateMetrics`. -/
def removeAllListeners (e : Option EventName) (s : BusState) : BusState :=
  match e with
  | some ev => updateMetrics { s with events := mapDel s.events ev, onceEvents := mapDel s.onceEvents ev }
  | none => updateMetrics { s with events := [], onceEvents := [] }

/-- `listenerCount(event)`: regular count plus once count. -/
def listenerCount (s : BusState) (e : EventName) : Nat :=
  (mapGet s.events e).length + (mapGet s.onceEvents e).length

/-- `hasListeners(event)`. -/
def hasListeners (s : BusState) (e : EventName) : Bool :=
  decide (listenerCount s e > 0)

/-- `eventNames()`: the keys present in either map, first-occurrence order. -/
def eventNames (s : BusState) : List EventName :=
  dedupFirst (s.events.map Prod.fst ++ s.onceEvents.map Prod.fst)

/-- `destroy()`: `removeAllListeners()`, then clear middleware and the
computed-metrics map. -/
def destroy (s : BusState) : BusState :=
  { removeAllListeners none s with middleware := [], computedMetrics := [] }

/-- The wildcard middleware channel. -/
def wildcard : EventName := "*"

/-- `use(event, middleware)`: append to the event's middleware array
(duplicates are allowed; arrays push). -/
def use (e : EventName) (m : Nat) (s : BusState) : BusState :=
  let mw := if mapHas s.middleware e then s.middleware else mapSet s.middleware e []
  { s with middleware := mapSet mw e (mapGet mw e ++ [m]) }

/-- Drop the first occurrence of `x` (`indexOf` + `splice`); no occurrence is
a no-op. -/
def removeFirst (l : IdSet) (x : Nat) : IdSet :=
  match l with
  | [] => []
  | y :: ys => if y = x then ys else y :: removeFirst ys x

/-- The unregister capability returned by `use`. -/
def unuse (e : EventName) (m : Nat) (s : BusState) : BusState :=
  if mapHas s.middleware e then
    { s with middleware := mapSet s.middleware e (removeFirst (mapGet s.middleware e) m) }
  else s

/-- Outcome of invoking one middleware on one payload. -/
inductive MwResult where
  | ret (v : Val)
  | nullish
  | throws
deriving DecidableEq

/-- Middleware behaviour environment. -/
abbrev MwEnv := Nat → Val → MwResult

/-- One step of a middleware loop: a non-nullish return replaces the payload;
a nullish return keeps it; a thrown error is caught, one diagnostic line is
logged, and the payload is unchanged. -/
def mwStep (mwEnv : MwEnv) (acc : Val × Nat) (m : Nat) : Val × Nat :=
  match mwEnv m acc.1 with
  | .ret v => (v, acc.2)
  | .nullish => acc
  | .throws => (acc.1, acc.2 + 1)

/-- Private `runMiddleware`: the wildcard channel loop first, then the
event-specific loop, threading the current payload; returns the processed
payload and the number of diagnostic lines produced by throwing middleware. -/
def runMiddleware (mwEnv : MwEnv) (s : BusState) (e : EventName) (v : Val) : Val × Nat :=
  let g := (mapGet s.middleware wildcard).foldl (mwStep mwEnv) (v, 0)
  (mapGet s.middleware e).foldl (mwStep mwEnv) g

/-- Behaviour of one user callback when invoked: the `once` re-subscriptions
it performs (event, fresh wrapper id, original id), in order, and whether it
then throws. -/
structure LBeh where
  onceRegs : List (EventName × Nat × Nat)
  throws : Bool

/-- Listener behaviour environment. -/
abbrev LEnv := Nat → LBeh

/-- One recorded listener invocation: the set member `callListeners` invoked
(the wrapper, for once-listeners), the user callback that actually ran, and
the payload it received. -/
structure Invocation where
  member : Nat
  orig : Nat
  payload : Val
deriving DecidableEq

/-- Observable side effects of one emission: invocations in order, error
handler calls `(event, member)` in order, and the number of diagnostic
`console.error` lines. -/
structure EmitLog where
  invoked : List Invocation
  handlerCalls : List (EventName × Nat)
  consoleErrors : Nat
deriving DecidableEq

/-- Apply the `once` registrations a callback performs, in order. -/
def applyOnceRegs (regs : List (EventName × Nat × Nat)) (s : BusState) : BusState :=
  match regs with
  | [] => s
  | r :: rs => applyOnceRegs rs (once r.1 r.2.1 r.2.2 s)

/-- Run one user callback under the per-listener isolation of the private
`callListeners`: the callback performs its registrations; if it throws, the
error is caught, `errorCount` is incremented, and it is routed to the
configured error handler when one exists, else to the diagnostic log. -/
def runCallback (env : LEnv) (e : EventName) (member orig : Nat) (v : Val)
    (acc : BusState × EmitLog) : BusState × EmitLog :=
  let b := env orig
  let s := applyOnceRegs b.onceRegs acc.1
  let log := { acc.2 with invoked := acc.2.invoked ++ [⟨member, orig, v⟩] }
  if b.throws then
    let s := { s with errorCount := s.errorCount + 1 }
    if s.hasErrorHandler then
      (s, { log with handlerCalls := log.handlerCalls ++ [(e, member)] })
    else
      (s, { log with consoleErrors := log.consoleErrors + 1 })
  else (s, log)

/-- Invoking a persistent listener: the set member is the user callback. -/
def persistentStep (env : LEnv) (e : EventName) (v : Val)
    (acc : BusState × EmitLog) (l : Nat) : BusState × EmitLog :=
  runCallback env e l l v acc

/-- Invoking a drained once-wrapper: the wrapper body first calls
`this.off(event, onceWrapper)`, then runs the original callback it carries. -/
def onceStep (env : LEnv) (e : EventName) (v : Val)
    (acc : BusState × EmitLog) (w : Nat) : BusState × EmitLog :=
  let s := off e w acc.1
  runCallback env e w (origLookup s.onceOrig w) v (s, acc.2)

/-- `callListeners` over the persistent set. -/
def callPersistent (env : LEnv) (e : EventName) (v : Val)
    (ms : IdSet) (acc : BusState × EmitLog) : BusState × EmitLog :=
  match ms with
  | [] => acc
  | l :: ls => callPersistent env e v ls (persistentStep env e v acc l)

/-- `callListeners` over the snapshot of drained once-wrappers. -/
def drainOnce (env : LEnv) (e : EventName) (v : Val)
    (ws : IdSet) (acc : BusState × EmitLog) : BusState × EmitLog :=
  match ws with
  | [] => acc
  | w :: rest => drainOnce env e v rest (onceStep env e v acc w)

/-- Result of `emit`: the post-emission bus state, the boolean `emit` returns,
and the emission's observable side effects. -/
structure EmitResult where
  state : BusState
  returned : Bool
  log : EmitLog
deriving DecidableEq

/-- The once-listener tail of `emit` (split out of `emit` for modular proofs):
read the once set after the persistent phase, and if it is non-empty snapshot
it, clear the live set before invocation, and invoke each snapshot member;
the returned boolean is true when either phase saw listeners. -/
def drainPhase (env : LEnv) (e : EventName) (pv : Val)
    (acc1 : BusState × EmitLog) (hasRegular : Bool) : EmitResult :=
  let onceList := mapGet acc1.1.onceEvents e
  if onceList = [] then
    { state := acc1.1, returned := hasRegular, log := acc1.2 }
  else
    let acc2 := drainOnce env e pv onceList
      ({ acc1.1 with onceEvents := mapSet acc1.1.onceEvents e [] }, acc1.2)
    { state := acc2.1, returned := true, log := acc2.2 }

/-- `emit(event, data)`: run the middleware chain, bump the counters, invoke
the persistent listeners of the event, then drain the once-listeners
(`drainPhase`).  Returns whether any listeners were present. -/
def emit (mwEnv : MwEnv) (env : LEnv) (e : EventName) (v : Val) (s : BusState) : EmitResult :=
  let mw := runMiddleware mwEnv s e v
  let s1 := { s with totalEventsEmitted := s.totalEventsEmitted + 1, lastEmittedEvent := some e }
  let regular := mapGet s1.events e
  drainPhase env e mw.1 (callPersistent env e mw.1 regular (s1, ⟨[], [], mw.2⟩))
    (decide (regular ≠ []))

/-- The `getMetrics()` view: the four reactive-state fields plus the derived
`events()` and `totalListeners()` reads. -/
structure MetricsView where
  totalEventsEmitted : Nat
  lastEmittedEvent : Option EventName
  activeListeners : Nat
  errorCount : Nat
  events : List EventName
  totalListeners : Nat
deriving DecidableEq

/-- `getMetrics()`. -/
def getMetrics (s : BusState) : MetricsView :=
  { totalEventsEmitted := s.totalEventsEmitted
    lastEmittedEvent := s.lastEmittedEvent
    activeListeners := s.activeListeners
    errorCount := s.errorCount
    events := eventNames s
    totalListeners := totalListenerCount s }

/-- JS truthiness of the optional `timeout` argument of `waitFor`
(`if (timeout)` is false for `undefined` and for `0`). -/
def jsTruthy : Option Nat → Bool
  | none => false
  | some n => decide (n ≠ 0)

/-- The rejection message of the `waitFor` timeout path. -/
def timeoutMessage (e : EventName) : String :=
  "Timeout waiting for event: " ++ e

/-- Result of calling `waitFor`: the bus state after it registered its
once-listener, and whether a timer was armed. -/
structure WaitForResult where
  state : BusState
  timerArmed : Bool
deriving DecidableEq

/-- `waitFor(event, timeout?)`: register (via `once`) an internal listener
`l` under a fresh wrapper `w`; arm a timer exactly when `timeout` is truthy. -/
def waitFor (e : EventName) (timeout : Option Nat) (w l : Nat) (s : BusState) : WaitForResult :=
  { state := once e w l s, timerArmed := jsTruthy timeout }

/-- The body of the timer callback armed by `waitFor`:
`this.off(event, listener)` with the internal listener, then
`reject(new Error(...))`.  Returns the bus state and the rejection message. -/
def fireTimeout (e : EventName) (l : Nat) (s : BusState) : BusState × String :=
  (off e l s, timeoutMessage e)

/-- One public mutating operation. -/
inductive Op where
  | opOn (e : EventName) (l : Nat)
  | opOnce (e : EventName) (w l : Nat)
  | opOff (e : EventName) (l : Nat)
  | opEmit (e : EventName) (v : Val)
  | opUse (e : EventName) (m : Nat)
  | opUnuse (e : EventName) (m : Nat)
  | opRemoveAll (e : Option EventName)
  | opDestroy

/-- Apply one public operation to the bus state. -/
def applyOp (mwEnv : MwEnv) (env : LEnv) (op : Op) (s : BusState) : BusState :=
  match op with
  | .opOn e l => on' e l s
  | .opOnce e w l => once e w l s
  | .opOff e l => off e l s
  | .opEmit e v => (emit mwEnv env e v s).state
  | .opUse e m => use e m s
  | .opUnuse e m => unuse e m s
  | .opRemoveAll e => removeAllListeners e s
  | .opDestroy => destroy s

/-- Run a sequence of public operations. -/
def runOps (mwEnv : MwEnv) (env : LEnv) (ops : List Op) (s : BusState) : BusState :=
  match ops with
  | [] => s
  | op :: rest => runOps mwEnv env rest (applyOp mwEnv env op s)

/-- A sequence of emissions of one event: the final state and the
concatenated invocation logs. -/
def emitSeq (mwEnv : MwEnv) (env : LEnv) (e : EventName) (vs : List Val) (s : BusState) : BusState × List Invocation :=
  match vs with
  | [] => (s, [])
  | v :: rest =>
    let r := emit mwEnv env e v s
    let tail := emitSeq mwEnv env e rest r.state
    (tail.1, r.log.invoked ++ tail.2)

/-- The metrics invariant: `activeListeners` equals the recomputed total. -/
def metricsOK (s : BusState) : Prop :=
  s.activeListeners = totalListenerCount s

/-- Erase the private computed-metrics map (the only state the
`enableMetrics` option influences). -/
def eraseCM (s : BusState) : BusState :=
  { s with computedMetrics := [] }

/-- A listener behaviour that does nothing. -/
def inertBeh : LBeh :=
  { onceRegs := [], throws := false }

/-- An environment of inert listeners. -/
def inertEnv : LEnv := fun _ => inertBeh

/-- Middleware that never transforms. -/
def inertMw : MwEnv := fun _ _ => .nullish

/-- Concrete event names used in witnesses. -/
def evReady : EventName := "ready"

def evTick : EventName := "tick"


/-- Add `n` to the error counter (the `catch` path of `callListeners`;
stated as a function of a state variable so that field projections reduce). -/
def bumpError (s : BusState) (n : Nat) : BusState :=
  { s with errorCount := s.errorCount + n }

/-- Number of throwing callbacks among a list of listener ids. -/
def countThrows (env : LEnv) (ms : List Nat) : Nat :=
  ms.countP (fun l => (env l).throws)

/-- Number of recorded invocations whose set member is `w`. -/
def memberCount (L : List Invocation) (w : Nat) : Nat :=
  L.countP (fun i => i.member = w)

/-- Number of occurrences of an id in a set list. -/
def idCount (L : List Nat) (w : Nat) : Nat :=
  L.countP (fun x => x = w)


/-- A concrete environment for exercising error isolation: listener 4 throws,
every other listener is inert; nobody re-subscribes. -/
def envC3 : LEnv := fun l => { onceRegs := [], throws := decide (l = 4) }

/-- A concrete bus with an error handler and two persistent listeners. -/
def sC3 : BusState := on' evTick 4 (on' evTick 8 (initState false true))


/-- Concrete middleware: id 0 increments the payload, id 1 doubles it, all
other ids return nothing. -/
def mwC5 : MwEnv := fun m p => if m = 0 then .ret (p + 1) else if m = 1 then .ret (p * 2) else .nullish

/-- A concrete bus with one wildcard middleware (id 0) and one event-specific
middleware (id 1). -/
def sC5 : BusState := use evTick 1 (use wildcard 0 (initState false false))


/-- A concrete environment in which the original listener 5 re-subscribes
listener 6 under the fresh wrapper 11 during its own callback. -/
def envC4 : LEnv :=
  fun l => if l = 5 then { onceRegs := [(evTick, 11, 6)], throws := false } else inertBeh

/-- A concrete bus with one pending once-listener: wrapper 10 carrying
original listener 5. -/
def sC4 : BusState := once evTick 10 5 (initState false false)

end RES

namespace RES

theorem mapGet_mapSet_same (m : List (EventName × IdSet)) (k : EventName) (v : IdSet) :
    mapGet (mapSet m k v) k = v := by
  induction m with
  | nil => simp [mapSet, mapGet]
  | cons p ps ih =>
    by_cases h : p.1 = k
    · simp [mapSet, mapGet, h]
    · simp [mapSet, mapGet, h, ih]

theorem mapGet_mapSet_other (m : List (EventName × IdSet)) (k k' : EventName) (v : IdSet)
    (h : k' ≠ k) : mapGet (mapSet m k v) k' = mapGet m k' := by
  have hk : k ≠ k' := fun hh => h hh.symm
  induction m with
  | nil => simp [mapSet, mapGet, hk]
  | cons p ps ih =>
    by_cases hp : p.1 = k
    · simp [mapSet, mapGet, hp, hk]
    · by_cases hp' : p.1 = k'
      · simp [mapSet, mapGet, hp, hp', h]
      · simp [mapSet, mapGet, hp, hp', ih]

theorem mapHas_false_mapGet (m : List (EventName × IdSet)) (k : EventName)
    (h : mapHas m k = false) : mapGet m k = [] := by
  induction m with
  | nil => simp [mapGet]
  | cons p ps ih =>
    by_cases hp : p.1 = k
    · simp [mapHas, hp] at h
    · simp [mapHas, hp] at h
      simp [mapGet, hp, ih h]

theorem mapHas_mapSet_same (m : List (EventName × IdSet)) (k : EventName) (v : IdSet) :
    mapHas (mapSet m k v) k = true := by
  induction m with
  | nil => simp [mapSet, mapHas]
  | cons p ps ih =>
    by_cases hp : p.1 = k
    · simp [mapSet, mapHas, hp]
    · simp [mapSet, mapHas, hp, ih]

theorem mapHas_mapSet_other (m : List (EventName × IdSet)) (k k' : EventName) (v : IdSet)
    (h : k' ≠ k) : mapHas (mapSet m k v) k' = mapHas m k' := by
  have hk : k ≠ k' := fun hh => h hh.symm
  induction m with
  | nil => simp [mapSet, mapHas, hk]
  | cons p ps ih =>
    by_cases hp : p.1 = k
    · simp [mapSet, mapHas, hp, hk]
    · by_cases hp' : p.1 = k'
      · simp [mapSet, mapHas, hp, hp', h]
      · simp [mapSet, mapHas, hp, hp', ih]

theorem mapGet_mapDel_same (m : List (EventName × IdSet)) (k : EventName) :
    mapGet (mapDel m k) k = [] := by
  induction m with
  | nil => simp [mapDel, mapGet]
  | cons p ps ih =>
    by_cases hp : p.1 = k
    · simp [mapDel, hp, ih]
    · simp [mapDel, mapGet, hp, ih]

theorem mapGet_mapDel_other (m : List (EventName × IdSet)) (k k' : EventName)
    (h : k' ≠ k) : mapGet (mapDel m k) k' = mapGet m k' := by
  have hk : k ≠ k' := fun hh => h hh.symm
  induction m with
  | nil => simp [mapDel]
  | cons p ps ih =>
    by_cases hp : p.1 = k
    · have hpk : p.1 ≠ k' := by rw [hp]; exact hk
      simp [mapDel, mapGet, hp, hpk, ih, hk]
    · simp [mapDel, mapGet, hp, ih]

theorem mapHas_iff_mem (m : List (EventName × IdSet)) (k : EventName) :
    mapHas m k = true ↔ k ∈ m.map Prod.fst := by
  induction m with
  | nil => simp [mapHas]
  | cons p ps ih =>
    by_cases hp : p.1 = k
    · simp [mapHas, hp]
    · simp only [mapHas, hp, if_false, List.map_cons, List.mem_cons, ih]
      constructor
      · exact fun hh => Or.inr hh
      · rintro (hh | hh)
        · exact absurd hh.symm hp
        · exact hh

theorem mem_dedupAux (l : List EventName) (seen : List EventName) (x : EventName) :
    x ∈ dedupAux seen l ↔ x ∈ l ∧ x ∉ seen := by
  induction l generalizing seen with
  | nil => simp [dedupAux]
  | cons y ys ih =>
    by_cases hy : y ∈ seen
    · rw [dedupAux, if_pos hy, ih]
      by_cases hx : x = y
      · subst hx
        simp [hy]
      · simp [hx]
    · rw [dedupAux, if_neg hy]
      by_cases hx : x = y
      · subst hx
        simp [hy]
      · simp only [List.mem_cons, hx, false_or, ih]

theorem mem_dedupFirst (l : List EventName) (x : EventName) :
    x ∈ dedupFirst l ↔ x ∈ l := by
  simp [dedupFirst, mem_dedupAux]

theorem origLookup_no_match (t : List (Nat × Nat)) (x : Nat)
    (h : ∀ a ∈ t, a.1 ≠ x) : origLookup t x = x := by
  induction t with
  | nil => rfl
  | cons p ps ih =>
    have hp : p.1 ≠ x := h p (by simp)
    simp only [origLookup, hp, if_false]
    exact ih (fun a ha => h a (by simp [ha]))

theorem origLookup_extend (t A : List (Nat × Nat)) (x : Nat)
    (h : ∀ a ∈ A, a.1 ≠ x) : origLookup (t ++ A) x = origLookup t x := by
  induction t with
  | nil => simpa [origLookup] using origLookup_no_match A x h
  | cons p ps ih =>
    by_cases hp : p.1 = x
    · simp [origLookup, hp]
    · simp [origLookup, hp, ih]

theorem mem_setDel (l : IdSet) (x y : Nat) :
    y ∈ setDel l x ↔ y ∈ l ∧ y ≠ x := by
  simp [setDel, List.mem_filter]

end RES

namespace RES

theorem ensureGet_same (m : List (EventName × IdSet)) (e : EventName) :
    mapGet (if mapHas m e then m else mapSet m e []) e = mapGet m e := by
  by_cases h : mapHas m e
  · simp [h]
  · rw [if_neg h, mapGet_mapSet_same, mapHas_false_mapGet m e (by simpa using h)]

theorem ensureGet_other (m : List (EventName × IdSet)) (e k : EventName) (h : k ≠ e) :
    mapGet (if mapHas m e then m else mapSet m e []) k = mapGet m k := by
  by_cases hh : mapHas m e
  · simp [hh]
  · simp only [hh, if_false]
    exact mapGet_mapSet_other m e k [] h

theorem ensureHas_same (m : List (EventName × IdSet)) (e : EventName) :
    mapHas (if mapHas m e then m else mapSet m e []) e = true := by
  by_cases h : mapHas m e
  · simp [h]
  · simp only [h, if_false]
    exact mapHas_mapSet_same m e []

theorem on'_events_same (e : EventName) (l : Nat) (s : BusState) :
    mapGet (on' e l s).events e = setAdd (mapGet s.events e) l := by
  show mapGet (mapSet _ e (setAdd (mapGet (if mapHas s.events e then s.events else mapSet s.events e []) e) l)) e = _
  rw [mapGet_mapSet_same, ensureGet_same]

theorem on'_events_other (e : EventName) (l : Nat) (s : BusState) (k : EventName) (h : k ≠ e) :
    mapGet (on' e l s).events k = mapGet s.events k := by
  show mapGet (mapSet _ e _) k = _
  rw [mapGet_mapSet_other _ _ _ _ h, ensureGet_other _ _ _ h]

theorem on'_events_has (e : EventName) (l : Nat) (s : BusState) :
    mapHas (on' e l s).events e = true := by
  show mapHas (mapSet _ e _) e = true
  exact mapHas_mapSet_same _ _ _

theorem on'_onceEvents (e : EventName) (l : Nat) (s : BusState) :
    (on' e l s).onceEvents = s.onceEvents := rfl

theorem on'_onceOrig (e : EventName) (l : Nat) (s : BusState) :
    (on' e l s).onceOrig = s.onceOrig := rfl

theorem once_events (e : EventName) (w l : Nat) (s : BusState) :
    (once e w l s).events = s.events := rfl

theorem once_onceOrig (e : EventName) (w l : Nat) (s : BusState) :
    (once e w l s).onceOrig = s.onceOrig ++ [(w, l)] := rfl

theorem once_errorCount (e : EventName) (w l : Nat) (s : BusState) :
    (once e w l s).errorCount = s.errorCount := rfl

theorem once_hasEH (e : EventName) (w l : Nat) (s : BusState) :
    (once e w l s).hasErrorHandler = s.hasErrorHandler := rfl

theorem once_onceGet_same (e : EventName) (w l : Nat) (s : BusState) :
    mapGet (once e w l s).onceEvents e = setAdd (mapGet s.onceEvents e) w := by
  show mapGet (mapSet _ e (setAdd (mapGet (if mapHas s.onceEvents e then s.onceEvents else mapSet s.onceEvents e []) e) w)) e = _
  rw [mapGet_mapSet_same, ensureGet_same]

theorem once_onceGet_other (e : EventName) (w l : Nat) (s : BusState) (k : EventName) (h : k ≠ e) :
    mapGet (once e w l s).onceEvents k = mapGet s.onceEvents k := by
  show mapGet (mapSet _ e _) k = _
  rw [mapGet_mapSet_other _ _ _ _ h, ensureGet_other _ _ _ h]

theorem off_onceOrig (e : EventName) (l : Nat) (s : BusState) :
    (off e l s).onceOrig = s.onceOrig := by
  show ({ s with events := _, onceEvents := _, activeListeners := _ } : BusState).onceOrig = s.onceOrig
  rfl

theorem off_errorCount (e : EventName) (l : Nat) (s : BusState) :
    (off e l s).errorCount = s.errorCount := rfl

theorem off_hasEH (e : EventName) (l : Nat) (s : BusState) :
    (off e l s).hasErrorHandler = s.hasErrorHandler := rfl

theorem off_events_same (e : EventName) (l : Nat) (s : BusState) :
    mapGet (off e l s).events e = setDel (mapGet s.events e) l := by
  show mapGet (if mapHas s.events e then mapSet s.events e (setDel (mapGet s.events e) l) else s.events) e = _
  by_cases h : mapHas s.events e
  · simp only [h, if_true]
    exact mapGet_mapSet_same _ _ _
  · rw [if_neg h, mapHas_false_mapGet s.events e (by simpa using h)]
    rfl

theorem off_events_other (e : EventName) (l : Nat) (s : BusState) (k : EventName) (h : k ≠ e) :
    mapGet (off e l s).events k = mapGet s.events k := by
  show mapGet (if mapHas s.events e then mapSet s.events e (setDel (mapGet s.events e) l) else s.events) k = _
  by_cases hh : mapHas s.events e
  · simp only [hh, if_true]
    exact mapGet_mapSet_other _ _ _ _ h
  · simp [hh]

theorem off_events_has (e : EventName) (l : Nat) (s : BusState) (k : EventName) :
    mapHas (off e l s).events k = mapHas s.events k := by
  show mapHas (if mapHas s.events e then mapSet s.events e (setDel (mapGet s.events e) l) else s.events) k = _
  by_cases hh : mapHas s.events e
  · simp only [hh, if_true]
    by_cases hk : k = e
    · subst hk
      rw [mapHas_mapSet_same, hh]
    · exact mapHas_mapSet_other _ _ _ _ hk
  · simp [hh]

theorem off_once_same (e : EventName) (l : Nat) (s : BusState) :
    mapGet (off e l s).onceEvents e = setDel (mapGet s.onceEvents e) l := by
  show mapGet (if mapHas s.onceEvents e then mapSet s.onceEvents e (setDel (mapGet s.onceEvents e) l) else s.onceEvents) e = _
  by_cases h : mapHas s.onceEvents e
  · simp only [h, if_true]
    exact mapGet_mapSet_same _ _ _
  · rw [if_neg h, mapHas_false_mapGet s.onceEvents e (by simpa using h)]
    rfl

theorem off_once_other (e : EventName) (l : Nat) (s : BusState) (k : EventName) (h : k ≠ e) :
    mapGet (off e l s).onceEvents k = mapGet s.onceEvents k := by
  show mapGet (if mapHas s.onceEvents e then mapSet s.onceEvents e (setDel (mapGet s.onceEvents e) l) else s.onceEvents) k = _
  by_cases hh : mapHas s.onceEvents e
  · simp only [hh, if_true]
    exact mapGet_mapSet_other _ _ _ _ h
  · simp [hh]

end RES

namespace RES

theorem totalListenerCount_congr (s₁ s₂ : BusState)
    (h1 : s₁.events = s₂.events) (h2 : s₁.onceEvents = s₂.onceEvents) :
    totalListenerCount s₁ = totalListenerCount s₂ := by
  unfold totalListenerCount
  rw [h1, h2]

theorem metricsOK_updateMetrics (s : BusState) : metricsOK (updateMetrics s) := by
  simp [metricsOK, updateMetrics, totalListenerCount]

theorem metricsOK_on' (e : EventName) (l : Nat) (s : BusState) : metricsOK (on' e l s) :=
  metricsOK_updateMetrics _

theorem metricsOK_once (e : EventName) (w l : Nat) (s : BusState) : metricsOK (once e w l s) :=
  metricsOK_updateMetrics _

theorem metricsOK_off (e : EventName) (l : Nat) (s : BusState) : metricsOK (off e l s) :=
  metricsOK_updateMetrics _

theorem metricsOK_removeAll (e : Option EventName) (s : BusState) :
    metricsOK (removeAllListeners e s) := by
  cases e with
  | none => exact metricsOK_updateMetrics _
  | some ev => exact metricsOK_updateMetrics _

theorem metricsOK_destroy (s : BusState) : metricsOK (destroy s) := by
  have h := metricsOK_removeAll none s
  simp only [metricsOK, destroy] at *
  rw [h]
  exact totalListenerCount_congr _ _ rfl rfl

theorem metricsOK_errorBump (s : BusState) (n : Nat) (h : metricsOK s) :
    metricsOK { s with errorCount := n } := by
  simp only [metricsOK] at *
  rw [h]
  exact totalListenerCount_congr _ _ rfl rfl

theorem metricsOK_emitCounters (s : BusState) (e : EventName) (h : metricsOK s) :
    metricsOK { s with totalEventsEmitted := s.totalEventsEmitted + 1, lastEmittedEvent := some e } := by
  simp only [metricsOK] at *
  rw [h]
  exact totalListenerCount_congr _ _ rfl rfl

theorem metricsOK_applyOnceRegs (regs : List (EventName × Nat × Nat)) (s : BusState)
    (h : metricsOK s) : metricsOK (applyOnceRegs regs s) := by
  induction regs generalizing s with
  | nil => exact h
  | cons r rs ih => exact ih _ (metricsOK_once _ _ _ _)

theorem runCallback_metricsOK (env : LEnv) (e : EventName) (m o : Nat) (v : Val)
    (acc : BusState × EmitLog) (h : metricsOK acc.1) :
    metricsOK (runCallback env e m o v acc).1 := by
  simp only [runCallback]
  split
  · split
    · exact metricsOK_errorBump _ _ (metricsOK_applyOnceRegs _ _ h)
    · exact metricsOK_errorBump _ _ (metricsOK_applyOnceRegs _ _ h)
  · exact metricsOK_applyOnceRegs _ _ h

theorem callPersistent_metricsOK (env : LEnv) (e : EventName) (v : Val)
    (ms : IdSet) (acc : BusState × EmitLog) (h : metricsOK acc.1) :
    metricsOK (callPersistent env e v ms acc).1 := by
  induction ms generalizing acc with
  | nil => exact h
  | cons l ls ih => exact ih _ (runCallback_metricsOK _ _ _ _ _ _ h)

theorem onceStep_metricsOK (env : LEnv) (e : EventName) (v : Val)
    (acc : BusState × EmitLog) (w : Nat) :
    metricsOK (onceStep env e v acc w).1 := by
  simp only [onceStep]
  exact runCallback_metricsOK _ _ _ _ _ _ (metricsOK_off _ _ _)

theorem drainOnce_metricsOK (env : LEnv) (e : EventName) (v : Val)
    (ws : IdSet) (acc : BusState × EmitLog) (h : metricsOK acc.1) :
    metricsOK (drainOnce env e v ws acc).1 := by
  induction ws generalizing acc with
  | nil => exact h
  | cons w rest ih => exact ih _ (onceStep_metricsOK _ _ _ _ _)

theorem drainOnce_metricsOK_ne (env : LEnv) (e : EventName) (v : Val)
    (ws : IdSet) (acc : BusState × EmitLog) (h : ws ≠ []) :
    metricsOK (drainOnce env e v ws acc).1 := by
  cases ws with
  | nil => exact absurd rfl h
  | cons w rest =>
    show metricsOK (drainOnce env e v rest (onceStep env e v acc w)).1
    exact drainOnce_metricsOK _ _ _ _ _ (onceStep_metricsOK _ _ _ _ _)

theorem drainPhase_metricsOK (env : LEnv) (e : EventName) (pv : Val)
    (acc : BusState × EmitLog) (b : Bool) (h : metricsOK acc.1) :
    metricsOK (drainPhase env e pv acc b).state := by
  simp only [drainPhase]
  split
  · exact h
  · exact drainOnce_metricsOK_ne _ _ _ _ _ (by assumption)

theorem emit_metricsOK (mwEnv : MwEnv) (env : LEnv) (e : EventName) (v : Val)
    (s : BusState) (h : metricsOK s) : metricsOK (emit mwEnv env e v s).state := by
  simp only [emit]
  exact drainPhase_metricsOK _ _ _ _ _
    (callPersistent_metricsOK _ _ _ _ _ (metricsOK_emitCounters _ _ h))

theorem use_metricsOK (e : EventName) (m : Nat) (s : BusState) (h : metricsOK s) :
    metricsOK (use e m s) := by
  simp only [metricsOK, use] at *
  rw [h]
  exact totalListenerCount_congr _ _ rfl rfl

theorem unuse_metricsOK (e : EventName) (m : Nat) (s : BusState) (h : metricsOK s) :
    metricsOK (unuse e m s) := by
  simp only [metricsOK, unuse] at *
  split
  · rw [h]
    exact totalListenerCount_congr _ _ rfl rfl
  · exact h

theorem applyOp_metricsOK (mwEnv : MwEnv) (env : LEnv) (op : Op) (s : BusState)
    (h : metricsOK s) : metricsOK (applyOp mwEnv env op s) := by
  cases op with
  | opOn e l => exact metricsOK_on' _ _ _
  | opOnce e w l => exact metricsOK_once _ _ _ _
  | opOff e l => exact metricsOK_off _ _ _
  | opEmit e v => exact emit_metricsOK _ _ _ _ _ h
  | opUse e m => exact use_metricsOK _ _ _ h
  | opUnuse e m => exact unuse_metricsOK _ _ _ h
  | opRemoveAll e => exact metricsOK_removeAll _ _
  | opDestroy => exact metricsOK_destroy _

theorem runOps_metricsOK (mwEnv : MwEnv) (env : LEnv) (ops : List Op) (s : BusState)
    (h : metricsOK s) : metricsOK (runOps mwEnv env ops s) := by
  induction ops generalizing s with
  | nil => exact h
  | cons op rest ih => exact ih _ (applyOp_metricsOK _ _ _ _ h)

end RES

namespace RES

theorem once_middleware (e : EventName) (w l : Nat) (s : BusState) :
    (once e w l s).middleware = s.middleware := rfl

theorem once_computedMetrics (e : EventName) (w l : Nat) (s : BusState) :
    (once e w l s).computedMetrics = s.computedMetrics := rfl

theorem applyOnceRegs_events (regs : List (EventName × Nat × Nat)) (s : BusState) :
    (applyOnceRegs regs s).events = s.events := by
  induction regs generalizing s with
  | nil => rfl
  | cons r rs ih => rw [applyOnceRegs, ih, once_events]

theorem applyOnceRegs_errorCount (regs : List (EventName × Nat × Nat)) (s : BusState) :
    (applyOnceRegs regs s).errorCount = s.errorCount := by
  induction regs generalizing s with
  | nil => rfl
  | cons r rs ih => rw [applyOnceRegs, ih, once_errorCount]

theorem applyOnceRegs_hasEH (regs : List (EventName × Nat × Nat)) (s : BusState) :
    (applyOnceRegs regs s).hasErrorHandler = s.hasErrorHandler := by
  induction regs generalizing s with
  | nil => rfl
  | cons r rs ih => rw [applyOnceRegs, ih, once_hasEH]

theorem applyOnceRegs_middleware (regs : List (EventName × Nat × Nat)) (s : BusState) :
    (applyOnceRegs regs s).middleware = s.middleware := by
  induction regs generalizing s with
  | nil => rfl
  | cons r rs ih => rw [applyOnceRegs, ih, once_middleware]

theorem applyOnceRegs_onceOrig (regs : List (EventName × Nat × Nat)) (s : BusState) :
    (applyOnceRegs regs s).onceOrig = s.onceOrig ++ regs.map (fun r => (r.2.1, r.2.2)) := by
  induction regs generalizing s with
  | nil => simp [applyOnceRegs]
  | cons r rs ih =>
    rw [applyOnceRegs, ih, once_onceOrig]
    simp [List.append_assoc]

theorem runCallback_eq (env : LEnv) (e : EventName) (m o : Nat) (v : Val)
    (acc : BusState × EmitLog) :
    runCallback env e m o v acc =
      (bumpError (applyOnceRegs (env o).onceRegs acc.1)
        (if (env o).throws then 1 else 0),
       { invoked := acc.2.invoked ++ [⟨m, o, v⟩]
         handlerCalls := acc.2.handlerCalls
           ++ (if (env o).throws && acc.1.hasErrorHandler then [(e, m)] else [])
         consoleErrors := acc.2.consoleErrors
           + (if (env o).throws && !acc.1.hasErrorHandler then 1 else 0) }) := by
  by_cases ht : (env o).throws
  · by_cases hh : acc.1.hasErrorHandler
    · simp [runCallback, bumpError, ht, hh, applyOnceRegs_hasEH]
    · simp [runCallback, bumpError, ht, hh, applyOnceRegs_hasEH]
  · simp [runCallback, bumpError, ht]

theorem callPersistent_char (env : LEnv) (e : EventName) (v : Val)
    (ms : IdSet) (acc : BusState × EmitLog)
    (h : ∀ l ∈ ms, (env l).onceRegs = []) :
    callPersistent env e v ms acc =
      (bumpError acc.1 (countThrows env ms),
       { invoked := acc.2.invoked ++ ms.map (fun l => ⟨l, l, v⟩)
         handlerCalls := acc.2.handlerCalls
           ++ (if acc.1.hasErrorHandler then
                 (ms.filter (fun l => (env l).throws)).map (fun l => (e, l))
               else [])
         consoleErrors := acc.2.consoleErrors
           + (if acc.1.hasErrorHandler then 0 else countThrows env ms) }) := by
  induction ms generalizing acc with
  | nil => simp [callPersistent, countThrows, bumpError]
  | cons l ls ih =>
    have hl : (env l).onceRegs = [] := h l (by simp)
    have hrest : ∀ x ∈ ls, (env x).onceRegs = [] := fun x hx => h x (by simp [hx])
    show callPersistent env e v ls (runCallback env e l l v acc) = _
    rw [runCallback_eq, hl, ih _ hrest]
    by_cases hh : acc.1.hasErrorHandler <;> by_cases ht : (env l).throws <;>
      simp [countThrows, List.countP_cons, hh, ht, List.filter_cons, List.append_assoc,
        applyOnceRegs, bumpError, Nat.add_assoc, Nat.add_comm]

end RES

namespace RES

theorem bumpError_events (s : BusState) (n : Nat) : (bumpError s n).events = s.events := rfl

theorem bumpError_onceEvents (s : BusState) (n : Nat) : (bumpError s n).onceEvents = s.onceEvents := rfl

theorem bumpError_onceOrig (s : BusState) (n : Nat) : (bumpError s n).onceOrig = s.onceOrig := rfl

theorem bumpError_middleware (s : BusState) (n : Nat) : (bumpError s n).middleware = s.middleware := rfl

theorem bumpError_errorCount (s : BusState) (n : Nat) : (bumpError s n).errorCount = s.errorCount + n := rfl

theorem bumpError_hasEH (s : BusState) (n : Nat) : (bumpError s n).hasErrorHandler = s.hasErrorHandler := rfl

theorem onceStep_fst (env : LEnv) (e : EventName) (v : Val) (acc : BusState × EmitLog) (w : Nat)
    (h : (env (origLookup acc.1.onceOrig w)).onceRegs = []) :
    (onceStep env e v acc w).1 =
      bumpError (off e w acc.1)
        (if (env (origLookup acc.1.onceOrig w)).throws then 1 else 0) := by
  show (runCallback env e w (origLookup (off e w acc.1).onceOrig w) v (off e w acc.1, acc.2)).1 = _
  rw [runCallback_eq]
  simp only [off_onceOrig]
  rw [h]
  rfl

theorem onceStep_snd (env : LEnv) (e : EventName) (v : Val) (acc : BusState × EmitLog) (w : Nat) :
    (onceStep env e v acc w).2 =
      { invoked := acc.2.invoked ++ [⟨w, origLookup acc.1.onceOrig w, v⟩]
        handlerCalls := acc.2.handlerCalls
          ++ (if (env (origLookup acc.1.onceOrig w)).throws && acc.1.hasErrorHandler
              then [(e, w)] else [])
        consoleErrors := acc.2.consoleErrors
          + (if (env (origLookup acc.1.onceOrig w)).throws && !acc.1.hasErrorHandler
             then 1 else 0) } := by
  show (runCallback env e w (origLookup (off e w acc.1).onceOrig w) v (off e w acc.1, acc.2)).2 = _
  rw [runCallback_eq]
  simp only [off_onceOrig, off_hasEH]

theorem drainOnce_onceOrig_noregs (env : LEnv) (e : EventName) (v : Val)
    (ws : IdSet) (acc : BusState × EmitLog) (h : ∀ l, (env l).onceRegs = []) :
    (drainOnce env e v ws acc).1.onceOrig = acc.1.onceOrig := by
  induction ws generalizing acc with
  | nil => rfl
  | cons w rest ih =>
    show (drainOnce env e v rest (onceStep env e v acc w)).1.onceOrig = _
    rw [ih, onceStep_fst _ _ _ _ _ (h _), bumpError_onceOrig, off_onceOrig]

theorem drainOnce_hasEH_noregs (env : LEnv) (e : EventName) (v : Val)
    (ws : IdSet) (acc : BusState × EmitLog) (h : ∀ l, (env l).onceRegs = []) :
    (drainOnce env e v ws acc).1.hasErrorHandler = acc.1.hasErrorHandler := by
  induction ws generalizing acc with
  | nil => rfl
  | cons w rest ih =>
    show (drainOnce env e v rest (onceStep env e v acc w)).1.hasErrorHandler = _
    rw [ih, onceStep_fst _ _ _ _ _ (h _), bumpError_hasEH, off_hasEH]

theorem drainOnce_errorCount_noregs (env : LEnv) (e : EventName) (v : Val)
    (ws : IdSet) (acc : BusState × EmitLog) (h : ∀ l, (env l).onceRegs = []) :
    (drainOnce env e v ws acc).1.errorCount
      = acc.1.errorCount + countThrows env (ws.map (origLookup acc.1.onceOrig)) := by
  induction ws generalizing acc with
  | nil => simp [drainOnce, countThrows]
  | cons w rest ih =>
    show (drainOnce env e v rest (onceStep env e v acc w)).1.errorCount = _
    rw [ih, onceStep_fst _ _ _ _ _ (h _)]
    simp only [bumpError_onceOrig, bumpError_errorCount, off_onceOrig, off_errorCount]
    by_cases ht : (env (origLookup acc.1.onceOrig w)).throws <;>
      simp [ht, countThrows, List.countP_cons, Nat.add_assoc, Nat.add_comm, Nat.add_left_comm]

theorem drainOnce_log_noregs (env : LEnv) (e : EventName) (v : Val)
    (ws : IdSet) (acc : BusState × EmitLog) (h : ∀ l, (env l).onceRegs = []) :
    (drainOnce env e v ws acc).2 =
      { invoked := acc.2.invoked ++ ws.map (fun w => ⟨w, origLookup acc.1.onceOrig w, v⟩)
        handlerCalls := acc.2.handlerCalls
          ++ (if acc.1.hasErrorHandler then
                (ws.filter (fun w => (env (origLookup acc.1.onceOrig w)).throws)).map (fun w => (e, w))
              else [])
        consoleErrors := acc.2.consoleErrors
          + (if acc.1.hasErrorHandler then 0
             else countThrows env (ws.map (origLookup acc.1.onceOrig))) } := by
  induction ws generalizing acc with
  | nil => simp [drainOnce, countThrows]
  | cons w rest ih =>
    show (drainOnce env e v rest (onceStep env e v acc w)).2 = _
    rw [ih, onceStep_fst _ _ _ _ _ (h _), onceStep_snd]
    simp only [bumpError_onceOrig, bumpError_hasEH, off_onceOrig, off_hasEH]
    by_cases hh : acc.1.hasErrorHandler <;>
      by_cases ht : (env (origLookup acc.1.onceOrig w)).throws <;>
      simp [hh, ht, countThrows, List.countP_cons, List.filter_cons, List.append_assoc,
        Nat.add_assoc, Nat.add_comm, Nat.add_left_comm]

end RES

namespace RES

/-- Claim C3, counterexample: with an error handler configured, a throwing
middleware does not increment `errorCount` and is not routed to the error
handler — it only produces a diagnostic log line.  This refutes the claim
that every middleware error is counted and routed like a listener error. -/
theorem claim3_counterexample :
    (use evTick 0 (initState false true)).hasErrorHandler = true
    ∧ (emit (fun _ _ => MwResult.throws) inertEnv evTick 7
        (use evTick 0 (initState false true))).state.errorCount = 0
    ∧ (emit (fun _ _ => MwResult.throws) inertEnv evTick 7
        (use evTick 0 (initState false true))).log.handlerCalls = []
    ∧ (emit (fun _ _ => MwResult.throws) inertEnv evTick 7
        (use evTick 0 (initState false true))).log.consoleErrors = 1 := by
  refine ⟨rfl, ?_, ?_, ?_⟩ <;> rfl

/-- Claim C3 (amended): for every emission, listener errors are recovered
locally — each increments `errorCount` and is routed to the configured error
handler when one exists, else to the diagnostic log — and middleware errors
are recovered locally but only produce a diagnostic log line (no counter
increment, no handler routing); in both cases `emit` keeps delivering to all
remaining middleware and to every listener of the emission (the invocation
list is exactly the persistent list followed by the drained once-snapshot,
regardless of which callbacks throw). -/
theorem claim3_amended_error_isolation (mwEnv : MwEnv) (env : LEnv) (e : EventName)
    (v : Val) (s : BusState) (Henv : ∀ l, (env l).onceRegs = []) :
    (emit mwEnv env e v s).state.errorCount
      = s.errorCount + countThrows env (mapGet s.events e)
        + countThrows env ((mapGet s.onceEvents e).map (origLookup s.onceOrig))
    ∧ (emit mwEnv env e v s).log.invoked
        = (mapGet s.events e).map (fun l => ⟨l, l, (runMiddleware mwEnv s e v).1⟩)
          ++ (mapGet s.onceEvents e).map
              (fun w => ⟨w, origLookup s.onceOrig w, (runMiddleware mwEnv s e v).1⟩)
    ∧ (emit mwEnv env e v s).log.handlerCalls
        = (if s.hasErrorHandler then
             ((mapGet s.events e).filter (fun l => (env l).throws)).map (fun l => (e, l))
               ++ ((mapGet s.onceEvents e).filter
                    (fun w => (env (origLookup s.onceOrig w)).throws)).map (fun w => (e, w))
           else [])
    ∧ (emit mwEnv env e v s).log.consoleErrors
        = (runMiddleware mwEnv s e v).2
          + (if s.hasErrorHandler then 0
             else countThrows env (mapGet s.events e)
               + countThrows env ((mapGet s.onceEvents e).map (origLookup s.onceOrig))) := by
  simp only [emit, drainPhase]
  rw [callPersistent_char env e (runMiddleware mwEnv s e v).1 _ _ (fun l _ => Henv l)]
  simp only [bumpError_onceEvents, bumpError_onceOrig, bumpError_errorCount, bumpError_hasEH]
  by_cases hQ : mapGet s.onceEvents e = []
  · simp only [hQ, if_pos rfl]
    refine ⟨?_, ?_, ?_, ?_⟩ <;>
      by_cases hh : s.hasErrorHandler <;>
      simp [hh, countThrows, bumpError_errorCount, bumpError_hasEH, bumpError_onceOrig]
  · rw [if_neg hQ]
    rw [drainOnce_log_noregs _ _ _ _ _ Henv, drainOnce_errorCount_noregs _ _ _ _ _ Henv]
    simp only [bumpError_onceEvents, bumpError_onceOrig, bumpError_errorCount, bumpError_hasEH]
    refine ⟨?_, ?_, ?_, ?_⟩ <;>
      by_cases hh : s.hasErrorHandler <;>
      simp [hh, countThrows, bumpError_errorCount, bumpError_hasEH, bumpError_onceOrig,
        List.append_assoc, Nat.add_assoc]

end RES

namespace RES

/-- Witness for claim C3's amended theorem at a concrete bus and environment. -/
theorem claim3_witness :
    (emit inertMw envC3 evTick 1 sC3).state.errorCount
      = sC3.errorCount + countThrows envC3 (mapGet sC3.events evTick)
        + countThrows envC3 ((mapGet sC3.onceEvents evTick).map (origLookup sC3.onceOrig))
    ∧ (emit inertMw envC3 evTick 1 sC3).log.invoked
        = (mapGet sC3.events evTick).map (fun l => ⟨l, l, (runMiddleware inertMw sC3 evTick 1).1⟩)
          ++ (mapGet sC3.onceEvents evTick).map
              (fun w => ⟨w, origLookup sC3.onceOrig w, (runMiddleware inertMw sC3 evTick 1).1⟩)
    ∧ (emit inertMw envC3 evTick 1 sC3).log.handlerCalls
        = (if sC3.hasErrorHandler then
             ((mapGet sC3.events evTick).filter (fun l => (envC3 l).throws)).map (fun l => (evTick, l))
               ++ ((mapGet sC3.onceEvents evTick).filter
                    (fun w => (envC3 (origLookup sC3.onceOrig w)).throws)).map (fun w => (evTick, w))
           else [])
    ∧ (emit inertMw envC3 evTick 1 sC3).log.consoleErrors
        = (runMiddleware inertMw sC3 evTick 1).2
          + (if sC3.hasErrorHandler then 0
             else countThrows envC3 (mapGet sC3.events evTick)
               + countThrows envC3 ((mapGet sC3.onceEvents evTick).map (origLookup sC3.onceOrig))) :=
  claim3_amended_error_isolation inertMw envC3 evTick 1 sC3 (fun l => rfl)

theorem runCallback_invoked_mem (env : LEnv) (e : EventName) (m o : Nat) (v : Val)
    (acc : BusState × EmitLog) (i : Invocation)
    (h : i ∈ (runCallback env e m o v acc).2.invoked) :
    i ∈ acc.2.invoked ∨ i = ⟨m, o, v⟩ := by
  rw [runCallback_eq] at h
  simpa using h

theorem callPersistent_payload (env : LEnv) (e : EventName) (v : Val)
    (ms : IdSet) (acc : BusState × EmitLog)
    (h : ∀ i ∈ acc.2.invoked, i.payload = v) :
    ∀ i ∈ (callPersistent env e v ms acc).2.invoked, i.payload = v := by
  induction ms generalizing acc with
  | nil => exact h
  | cons l ls ih =>
    refine ih _ (fun i hi => ?_)
    rcases runCallback_invoked_mem env e l l v acc i hi with hmem | heq
    · exact h i hmem
    · rw [heq]

theorem drainOnce_payload (env : LEnv) (e : EventName) (v : Val)
    (ws : IdSet) (acc : BusState × EmitLog)
    (h : ∀ i ∈ acc.2.invoked, i.payload = v) :
    ∀ i ∈ (drainOnce env e v ws acc).2.invoked, i.payload = v := by
  induction ws generalizing acc with
  | nil => exact h
  | cons w rest ih =>
    refine ih _ (fun i hi => ?_)
    have hi' : i ∈ (runCallback env e w (origLookup (off e w acc.1).onceOrig w) v
        (off e w acc.1, acc.2)).2.invoked := hi
    rcases runCallback_invoked_mem _ _ _ _ _ _ _ hi' with hmem | heq
    · exact h i hmem
    · rw [heq]

theorem emit_payload (mwEnv : MwEnv) (env : LEnv) (e : EventName) (v : Val) (s : BusState) :
    ∀ i ∈ (emit mwEnv env e v s).log.invoked,
      i.payload = (runMiddleware mwEnv s e v).1 := by
  simp only [emit, drainPhase]
  split
  · exact callPersistent_payload _ _ _ _ _ (by simp)
  · exact drainOnce_payload _ _ _ _ _ (callPersistent_payload _ _ _ _ _ (by simp))

/-- Claim C5: the middleware chain of an emission is the wildcard list followed
by the event-specific list, folded in registration order over the current
payload; a middleware returning a non-absent value replaces the payload for
the remainder of the chain, returning nothing leaves it unchanged, and every
listener invoked by the emission receives the chain's processed payload. -/
theorem claim5_middleware_chain (mwEnv : MwEnv) (env : LEnv) (s : BusState)
    (e : EventName) (v : Val) :
    runMiddleware mwEnv s e v
      = (mapGet s.middleware wildcard ++ mapGet s.middleware e).foldl (mwStep mwEnv) (v, 0)
    ∧ (∀ (m : Nat) (ms : List Nat) (acc : Val × Nat) (u : Val), mwEnv m acc.1 = .ret u →
        (m :: ms).foldl (mwStep mwEnv) acc = ms.foldl (mwStep mwEnv) (u, acc.2))
    ∧ (∀ (m : Nat) (ms : List Nat) (acc : Val × Nat), mwEnv m acc.1 = .nullish →
        (m :: ms).foldl (mwStep mwEnv) acc = ms.foldl (mwStep mwEnv) acc)
    ∧ (∀ i ∈ (emit mwEnv env e v s).log.invoked,
        i.payload = (runMiddleware mwEnv s e v).1) := by
  refine ⟨?_, ?_, ?_, emit_payload mwEnv env e v s⟩
  · rw [List.foldl_append]
    rfl
  · intro m ms acc u h
    simp [List.foldl_cons, mwStep, h]
  · intro m ms acc h
    simp [List.foldl_cons, mwStep, h]

/-- Witness for claim C5 at a concrete two-middleware bus: the wildcard
middleware (increment) runs before the event middleware (double), a `ret`
replaces the payload, a nullish return keeps it. -/
theorem claim5_witness :
    runMiddleware mwC5 sC5 evTick 3
      = (mapGet sC5.middleware wildcard ++ mapGet sC5.middleware evTick).foldl (mwStep mwC5) (3, 0)
    ∧ ([0] : List Nat).foldl (mwStep mwC5) (3, 0) = ([] : List Nat).foldl (mwStep mwC5) (4, 0)
    ∧ ([2] : List Nat).foldl (mwStep mwC5) (3, 0) = ([] : List Nat).foldl (mwStep mwC5) (3, 0) :=
  ⟨(claim5_middleware_chain mwC5 inertEnv sC5 evTick 3).1,
   (claim5_middleware_chain mwC5 inertEnv sC5 evTick 3).2.1 0 [] (3, 0) 4 rfl,
   (claim5_middleware_chain mwC5 inertEnv sC5 evTick 3).2.2.1 2 [] (3, 0) rfl⟩

end RES

namespace RES

/-- Claim C7: `destroy()` clears all listener membership and all middleware —
afterwards `eventNames()` is empty and `listenerCount` is 0 for every event —
while the metrics counters `totalEventsEmitted`, `lastEmittedEvent` and
`errorCount` keep their pre-destroy values (`activeListeners` is recomputed
to 0 by the drain of membership). -/
theorem claim7_destroy_clears_membership (s : BusState) :
    eventNames (destroy s) = []
    ∧ (∀ e, listenerCount (destroy s) e = 0)
    ∧ (∀ e, hasListeners (destroy s) e = false)
    ∧ (destroy s).middleware = []
    ∧ (destroy s).activeListeners = 0
    ∧ (destroy s).totalEventsEmitted = s.totalEventsEmitted
    ∧ (destroy s).lastEmittedEvent = s.lastEmittedEvent
    ∧ (destroy s).errorCount = s.errorCount :=
  ⟨rfl, fun e => rfl, fun e => rfl, rfl, rfl, rfl, rfl, rfl⟩

/-- Claim C8: from a state with no listeners on the event, `on` followed by
`off` with the same listener leaves the event name visible in `eventNames()`
even though `listenerCount` is 0 and `hasListeners` is false — `off` deletes
the member from the per-event set but never deletes the now-empty set's key
from the map. -/
theorem claim8_stale_event_name (s : BusState) (e : EventName) (l : Nat)
    (h1 : mapGet s.events e = []) (h2 : mapGet s.onceEvents e = []) :
    e ∈ eventNames (off e l (on' e l s))
    ∧ listenerCount (off e l (on' e l s)) e = 0
    ∧ hasListeners (off e l (on' e l s)) e = false := by
  have hev : mapGet (off e l (on' e l s)).events e = [] := by
    rw [off_events_same, on'_events_same, h1]
    simp [setAdd, setDel]
  have hoc : mapGet (off e l (on' e l s)).onceEvents e = [] := by
    rw [off_once_same, on'_onceEvents, h2]
    rfl
  have hcount : listenerCount (off e l (on' e l s)) e = 0 := by
    rw [listenerCount, hev, hoc]
    rfl
  refine ⟨?_, hcount, ?_⟩
  · have hh : mapHas (off e l (on' e l s)).events e = true := by
      rw [off_events_has, on'_events_has]
    rw [eventNames, mem_dedupFirst]
    exact List.mem_append_left _ ((mapHas_iff_mem _ _).1 hh)
  · rw [hasListeners, hcount]
    rfl

/-- Witness for claim C8 on a fresh bus. -/
theorem claim8_witness :
    evTick ∈ eventNames (off evTick 0 (on' evTick 0 (initState false false)))
    ∧ listenerCount (off evTick 0 (on' evTick 0 (initState false false))) evTick = 0
    ∧ hasListeners (off evTick 0 (on' evTick 0 (initState false false))) evTick = false :=
  claim8_stale_event_name (initState false false) evTick 0 rfl rfl

/-- Claim C9: `waitFor(E, 0)` arms no timer — the `if (timeout)` guard is
falsy for 0 — so the call is indistinguishable from `waitFor(E)` with no
timeout: same state, no armed timer, hence no rejection path. -/
theorem claim9_waitFor_zero_timeout (e : EventName) (w l : Nat) (s : BusState) :
    waitFor e (some 0) w l s = waitFor e none w l s
    ∧ (waitFor e (some 0) w l s).timerArmed = false :=
  ⟨rfl, rfl⟩

/-- Claim C1, evaluated at the failing input: `waitFor('ready', 10)` on a
fresh bus registers a once-wrapper (id 1) carrying the internal resolve
listener (id 0) and arms the timer; when the timer fires, the handler calls
`off(event, listener)` with the internal listener, which does not match the
stored wrapper — `listenerCount` stays 1 instead of returning to 0, and a
later `emit('ready', 5)` still invokes the registered once-listener.  The
rejection message does carry the event name. -/
theorem claim1_waitFor_timeout_leaves_listener :
    (waitFor evReady (some 10) 1 0 (initState false false)).timerArmed = true
    ∧ listenerCount (initState false false) evReady = 0
    ∧ listenerCount (waitFor evReady (some 10) 1 0 (initState false false)).state evReady = 1
    ∧ (fireTimeout evReady 0 (waitFor evReady (some 10) 1 0 (initState false false)).state).2
        = timeoutMessage evReady
    ∧ (∃ a b : String, timeoutMessage evReady = a ++ evReady ++ b)
    ∧ listenerCount
        (fireTimeout evReady 0 (waitFor evReady (some 10) 1 0 (initState false false)).state).1
        evReady = 1
    ∧ (emit inertMw inertEnv evReady 5
        (fireTimeout evReady 0 (waitFor evReady (some 10) 1 0 (initState false false)).state).1).log.invoked
        = [⟨1, 0, 5⟩] := by
  refine ⟨rfl, rfl, rfl, rfl, ⟨"Timeout waiting for event: ", "", by decide⟩, rfl, rfl⟩

/-- Claim C2, evaluated at the failing input: `once('tick', f)` stores a
wrapper (id 1) that carries the original listener (id 0) in its
`_originalListener` property, but `off('tick', f)` with the original callback
deletes only by identity and never consults that back-reference —
`listenerCount` stays 1 and a later `emit('tick', 5)` still invokes `f`. -/
theorem claim2_off_ignores_once_original :
    listenerCount (once evTick 1 0 (initState false false)) evTick = 1
    ∧ origLookup (once evTick 1 0 (initState false false)).onceOrig 1 = 0
    ∧ listenerCount (off evTick 0 (once evTick 1 0 (initState false false))) evTick = 1
    ∧ (emit inertMw inertEnv evTick 5
        (off evTick 0 (once evTick 1 0 (initState false false)))).log.invoked
        = [⟨1, 0, 5⟩] :=
  ⟨rfl, rfl, rfl, rfl⟩

end RES

namespace RES

/-- Claim C6: after any sequence of public operations (including the
once-listener drain performed inside `emit`, whose wrapper bodies call `off`),
`metrics.activeListeners` equals the sum over all events of persistent-set
size plus once-set size. -/
theorem claim6_activeListeners_invariant (mwEnv : MwEnv) (env : LEnv)
    (ops : List Op) (em eh : Bool) :
    metricsOK (runOps mwEnv env ops (initState em eh)) :=
  runOps_metricsOK mwEnv env ops _ rfl

theorem eraseCM_events (s : BusState) : (eraseCM s).events = s.events := rfl

theorem eraseCM_onceEvents (s : BusState) : (eraseCM s).onceEvents = s.onceEvents := rfl

theorem eraseCM_onceOrig (s : BusState) : (eraseCM s).onceOrig = s.onceOrig := rfl

theorem eraseCM_middleware (s : BusState) : (eraseCM s).middleware = s.middleware := rfl

theorem eraseCM_hasEH (s : BusState) : (eraseCM s).hasErrorHandler = s.hasErrorHandler := rfl

theorem on'_eraseCM (e : EventName) (l : Nat) (s : BusState) :
    on' e l (eraseCM s) = eraseCM (on' e l s) := rfl

theorem once_eraseCM (e : EventName) (w l : Nat) (s : BusState) :
    once e w l (eraseCM s) = eraseCM (once e w l s) := rfl

theorem off_eraseCM (e : EventName) (l : Nat) (s : BusState) :
    off e l (eraseCM s) = eraseCM (off e l s) := rfl

theorem bumpError_eraseCM (s : BusState) (n : Nat) :
    bumpError (eraseCM s) n = eraseCM (bumpError s n) := rfl

theorem applyOnceRegs_eraseCM (regs : List (EventName × Nat × Nat)) (s : BusState) :
    applyOnceRegs regs (eraseCM s) = eraseCM (applyOnceRegs regs s) := by
  induction regs generalizing s with
  | nil => rfl
  | cons r rs ih =>
    show applyOnceRegs rs (once r.1 r.2.1 r.2.2 (eraseCM s)) = _
    rw [once_eraseCM, ih]
    rfl

theorem runCallback_eraseCM (env : LEnv) (e : EventName) (m o : Nat) (v : Val)
    (t : BusState) (L : EmitLog) :
    runCallback env e m o v (eraseCM t, L)
      = (eraseCM (runCallback env e m o v (t, L)).1, (runCallback env e m o v (t, L)).2) := by
  rw [runCallback_eq, runCallback_eq]
  simp only [applyOnceRegs_eraseCM, bumpError_eraseCM, eraseCM_hasEH]

theorem callPersistent_eraseCM (env : LEnv) (e : EventName) (v : Val) (ms : IdSet) :
    ∀ (t : BusState) (L : EmitLog),
      callPersistent env e v ms (eraseCM t, L)
        = (eraseCM (callPersistent env e v ms (t, L)).1, (callPersistent env e v ms (t, L)).2) := by
  induction ms with
  | nil => intro t L; rfl
  | cons l ls ih =>
    intro t L
    show callPersistent env e v ls (runCallback env e l l v (eraseCM t, L)) = _
    rw [runCallback_eraseCM, ih]
    rfl

theorem onceStep_eraseCM (env : LEnv) (e : EventName) (v : Val)
    (t : BusState) (L : EmitLog) (w : Nat) :
    onceStep env e v (eraseCM t, L) w
      = (eraseCM (onceStep env e v (t, L) w).1, (onceStep env e v (t, L) w).2) := by
  show runCallback env e w (origLookup (off e w (eraseCM t)).onceOrig w) v
      (off e w (eraseCM t), L) = _
  rw [off_eraseCM]
  show runCallback env e w (origLookup (off e w t).onceOrig w) v
      (eraseCM (off e w t), L) = _
  rw [runCallback_eraseCM]
  rfl

theorem drainOnce_eraseCM (env : LEnv) (e : EventName) (v : Val) (ws : IdSet) :
    ∀ (t : BusState) (L : EmitLog),
      drainOnce env e v ws (eraseCM t, L)
        = (eraseCM (drainOnce env e v ws (t, L)).1, (drainOnce env e v ws (t, L)).2) := by
  induction ws with
  | nil => intro t L; rfl
  | cons w rest ih =>
    intro t L
    show drainOnce env e v rest (onceStep env e v (eraseCM t, L) w) = _
    rw [onceStep_eraseCM, ih]
    rfl

theorem drainPhase_eraseCM (env : LEnv) (e : EventName) (pv : Val)
    (t : BusState) (L : EmitLog) (b : Bool) :
    drainPhase env e pv (eraseCM t, L) b
      = { state := eraseCM (drainPhase env e pv (t, L) b).state
          returned := (drainPhase env e pv (t, L) b).returned
          log := (drainPhase env e pv (t, L) b).log } := by
  simp only [drainPhase, eraseCM_onceEvents]
  by_cases h : mapGet t.onceEvents e = []
  · rw [if_pos h, if_pos h]
  · rw [if_neg h, if_neg h]
    rw [show ({ eraseCM t with onceEvents := mapSet t.onceEvents e [] } : BusState)
        = eraseCM { t with onceEvents := mapSet t.onceEvents e [] } from rfl]
    rw [drainOnce_eraseCM]

theorem emit_eraseCM (mwEnv : MwEnv) (env : LEnv) (e : EventName) (v : Val) (s : BusState) :
    emit mwEnv env e v (eraseCM s)
      = { state := eraseCM (emit mwEnv env e v s).state
          returned := (emit mwEnv env e v s).returned
          log := (emit mwEnv env e v s).log } := by
  show drainPhase env e (runMiddleware mwEnv s e v).1
      (callPersistent env e (runMiddleware mwEnv s e v).1
        (mapGet s.events e)
        (eraseCM { s with totalEventsEmitted := s.totalEventsEmitted + 1
                          lastEmittedEvent := some e },
         { invoked := [], handlerCalls := [], consoleErrors := (runMiddleware mwEnv s e v).2 }))
      (decide (mapGet s.events e ≠ [])) = _
  rw [callPersistent_eraseCM, drainPhase_eraseCM]
  rfl

end RES

namespace RES

theorem use_eraseCM (e : EventName) (m : Nat) (s : BusState) :
    use e m (eraseCM s) = eraseCM (use e m s) := rfl

theorem unuse_eraseCM (e : EventName) (m : Nat) (s : BusState) :
    unuse e m (eraseCM s) = eraseCM (unuse e m s) := by
  by_cases h : mapHas s.middleware e <;> simp [unuse, eraseCM, h]

theorem removeAll_eraseCM (e : Option EventName) (s : BusState) :
    removeAllListeners e (eraseCM s) = eraseCM (removeAllListeners e s) := by
  cases e with
  | none => rfl
  | some ev => rfl

theorem destroy_eraseCM (s : BusState) : destroy (eraseCM s) = eraseCM (destroy s) := rfl

theorem applyOp_eraseCM (mwEnv : MwEnv) (env : LEnv) (op : Op) (s : BusState) :
    applyOp mwEnv env op (eraseCM s) = eraseCM (applyOp mwEnv env op s) := by
  cases op with
  | opOn e l => exact on'_eraseCM e l s
  | opOnce e w l => exact once_eraseCM e w l s
  | opOff e l => exact off_eraseCM e l s
  | opEmit e v =>
    show (emit mwEnv env e v (eraseCM s)).state = eraseCM (emit mwEnv env e v s).state
    rw [emit_eraseCM]
  | opUse e m => exact use_eraseCM e m s
  | opUnuse e m => exact unuse_eraseCM e m s
  | opRemoveAll e => exact removeAll_eraseCM e s
  | opDestroy => exact destroy_eraseCM s

theorem runOps_eraseCM (mwEnv : MwEnv) (env : LEnv) (ops : List Op) :
    ∀ s : BusState, runOps mwEnv env ops (eraseCM s) = eraseCM (runOps mwEnv env ops s) := by
  induction ops with
  | nil => intro s; rfl
  | cons op rest ih =>
    intro s
    show runOps mwEnv env rest (applyOp mwEnv env op (eraseCM s)) = _
    rw [applyOp_eraseCM, ih]
    rfl

/-- Claim C10: the `enableMetrics` construction option does not influence any
observable behaviour — for every sequence of public operations, the bus built
with the flag and the bus built without it differ at most in the private
computed-metrics map, and `getMetrics`, `eventNames`, `listenerCount`,
`hasListeners`, and the value and log of any further `emit` are identical. -/
theorem claim10_enableMetrics_noninterference (mwEnv : MwEnv) (env : LEnv)
    (ops : List Op) (eh : Bool) :
    runOps mwEnv env ops (initState false eh)
      = eraseCM (runOps mwEnv env ops (initState true eh))
    ∧ getMetrics (runOps mwEnv env ops (initState true eh))
        = getMetrics (runOps mwEnv env ops (initState false eh))
    ∧ eventNames (runOps mwEnv env ops (initState true eh))
        = eventNames (runOps mwEnv env ops (initState false eh))
    ∧ (∀ e, listenerCount (runOps mwEnv env ops (initState true eh)) e
        = listenerCount (runOps mwEnv env ops (initState false eh)) e)
    ∧ (∀ e, hasListeners (runOps mwEnv env ops (initState true eh)) e
        = hasListeners (runOps mwEnv env ops (initState false eh)) e)
    ∧ (∀ e v, (emit mwEnv env e v (runOps mwEnv env ops (initState true eh))).returned
          = (emit mwEnv env e v (runOps mwEnv env ops (initState false eh))).returned
        ∧ (emit mwEnv env e v (runOps mwEnv env ops (initState true eh))).log
          = (emit mwEnv env e v (runOps mwEnv env ops (initState false eh))).log) := by
  have hF : runOps mwEnv env ops (initState false eh)
      = eraseCM (runOps mwEnv env ops (initState true eh)) := by
    rw [show initState false eh = eraseCM (initState true eh) from rfl, runOps_eraseCM]
  refine ⟨hF, ?_, ?_, ?_, ?_, ?_⟩
  · rw [hF]; rfl
  · rw [hF]; rfl
  · intro e; rw [hF]; rfl
  · intro e; rw [hF]; rfl
  · intro e v
    rw [hF, emit_eraseCM]
    exact ⟨rfl, rfl⟩

end RES

namespace RES

theorem idCount_not_mem (l : IdSet) (w : Nat) (h : w ∉ l) : idCount l w = 0 := by
  induction l with
  | nil => rfl
  | cons x xs ih =>
    have hx : x ≠ w := fun hh => h (by simp [hh])
    simp only [idCount, List.countP_cons] at *
    simp [hx, ih (fun hh => h (by simp [hh]))]

theorem idCount_setAdd_ne (l : IdSet) (x w : Nat) (h : x ≠ w) :
    idCount (setAdd l x) w = idCount l w := by
  unfold setAdd
  split
  · rfl
  · simp [idCount, List.countP_append, List.countP_cons, h]

theorem idCount_setDel_le (l : IdSet) (x w : Nat) :
    idCount (setDel l x) w ≤ idCount l w := by
  induction l with
  | nil => exact Nat.le_refl _
  | cons y ys ih =>
    by_cases hy : y = x
    · have hdel : setDel (y :: ys) x = setDel ys x := by
        simp [setDel, List.filter_cons, hy]
      rw [hdel]
      refine Nat.le_trans ih ?_
      simp only [idCount, List.countP_cons]
      omega
    · have hdel : setDel (y :: ys) x = y :: setDel ys x := by
        simp [setDel, List.filter_cons, hy]
      rw [hdel]
      simp only [idCount, List.countP_cons] at *
      omega

theorem memberCount_append (L1 L2 : List Invocation) (w : Nat) :
    memberCount (L1 ++ L2) w = memberCount L1 w + memberCount L2 w := by
  simp [memberCount, List.countP_append]

theorem runCallback_memberCount (env : LEnv) (e : EventName) (m o : Nat) (v : Val)
    (acc : BusState × EmitLog) (w : Nat) :
    memberCount (runCallback env e m o v acc).2.invoked w
      = memberCount acc.2.invoked w + (if m = w then 1 else 0) := by
  rw [runCallback_eq]
  simp [memberCount, List.countP_append, List.countP_cons]

theorem callPersistent_memberCount (env : LEnv) (e : EventName) (v : Val) (ms : IdSet) :
    ∀ (acc : BusState × EmitLog) (w : Nat),
      memberCount (callPersistent env e v ms acc).2.invoked w
        = memberCount acc.2.invoked w + idCount ms w := by
  induction ms with
  | nil => intro acc w; simp [callPersistent, idCount]
  | cons l ls ih =>
    intro acc w
    show memberCount (callPersistent env e v ls (runCallback env e l l v acc)).2.invoked w = _
    rw [ih, runCallback_memberCount]
    simp [idCount, List.countP_cons]
    omega

theorem drainOnce_memberCount (env : LEnv) (e : EventName) (v : Val) (ws : IdSet) :
    ∀ (acc : BusState × EmitLog) (w : Nat),
      memberCount (drainOnce env e v ws acc).2.invoked w
        = memberCount acc.2.invoked w + idCount ws w := by
  induction ws with
  | nil => intro acc w; simp [drainOnce, idCount]
  | cons x rest ih =>
    intro acc w
    show memberCount (drainOnce env e v rest (onceStep env e v acc x)).2.invoked w = _
    rw [ih]
    show memberCount (runCallback env e x (origLookup (off e x acc.1).onceOrig x) v
        (off e x acc.1, acc.2)).2.invoked w + _ = _
    rw [runCallback_memberCount]
    simp [idCount, List.countP_cons]
    omega

theorem runCallback_events_eq (env : LEnv) (e : EventName) (m o : Nat) (v : Val)
    (acc : BusState × EmitLog) :
    (runCallback env e m o v acc).1.events = acc.1.events := by
  rw [runCallback_eq]
  show (bumpError (applyOnceRegs (env o).onceRegs acc.1) _).events = _
  rw [bumpError_events, applyOnceRegs_events]

theorem callPersistent_events_eq (env : LEnv) (e : EventName) (v : Val) (ms : IdSet) :
    ∀ acc : BusState × EmitLog,
      (callPersistent env e v ms acc).1.events = acc.1.events := by
  induction ms with
  | nil => intro acc; rfl
  | cons l ls ih =>
    intro acc
    show (callPersistent env e v ls (runCallback env e l l v acc)).1.events = _
    rw [ih, runCallback_events_eq]

theorem off_events_mem (e : EventName) (l : Nat) (s : BusState) (k : EventName) (x : Nat)
    (h : x ∈ mapGet (off e l s).events k) : x ∈ mapGet s.events k := by
  by_cases hk : k = e
  · subst hk
    rw [off_events_same] at h
    exact ((mem_setDel _ _ _).1 h).1
  · rwa [off_events_other _ _ _ _ hk] at h

theorem onceStep_events_mem (env : LEnv) (e : EventName) (v : Val)
    (acc : BusState × EmitLog) (w : Nat) (k : EventName) (x : Nat)
    (h : x ∈ mapGet (onceStep env e v acc w).1.events k) : x ∈ mapGet acc.1.events k := by
  have h' : x ∈ mapGet (runCallback env e w (origLookup (off e w acc.1).onceOrig w) v
      (off e w acc.1, acc.2)).1.events k := h
  rw [runCallback_events_eq] at h'
  exact off_events_mem _ _ _ _ _ h'

theorem drainOnce_events_mem (env : LEnv) (e : EventName) (v : Val) (ws : IdSet) :
    ∀ (acc : BusState × EmitLog) (k : EventName) (x : Nat),
      x ∈ mapGet (drainOnce env e v ws acc).1.events k → x ∈ mapGet acc.1.events k := by
  induction ws with
  | nil => intro acc k x h; exact h
  | cons w rest ih =>
    intro acc k x h
    exact onceStep_events_mem _ _ _ _ _ _ _ (ih _ _ _ h)

theorem drainPhase_events_mem (env : LEnv) (e : EventName) (pv : Val)
    (acc : BusState × EmitLog) (b : Bool) (k : EventName) (x : Nat)
    (h : x ∈ mapGet (drainPhase env e pv acc b).state.events k) :
    x ∈ mapGet acc.1.events k := by
  obtain ⟨t, L⟩ := acc
  simp only [drainPhase] at h
  split at h
  · exact h
  · have h' := drainOnce_events_mem env e pv _ _ _ _ h
    exact h'

theorem emit_events_mem (mwEnv : MwEnv) (env : LEnv) (e : EventName) (v : Val)
    (s : BusState) (k : EventName) (x : Nat)
    (h : x ∈ mapGet (emit mwEnv env e v s).state.events k) : x ∈ mapGet s.events k := by
  have h' : x ∈ mapGet (drainPhase env e (runMiddleware mwEnv s e v).1
      (callPersistent env e (runMiddleware mwEnv s e v).1
        (mapGet s.events e)
        ({ s with totalEventsEmitted := s.totalEventsEmitted + 1, lastEmittedEvent := some e },
         { invoked := [], handlerCalls := [], consoleErrors := (runMiddleware mwEnv s e v).2 }))
      (decide (mapGet s.events e ≠ []))).state.events k := h
  have h2 := drainPhase_events_mem _ _ _ _ _ _ _ h'
  rw [callPersistent_events_eq] at h2
  exact h2

end RES

namespace RES

theorem once_onceGet_count_ne (e' : EventName) (w' l' : Nat) (s : BusState)
    (k : EventName) (w : Nat) (h : w' ≠ w) :
    idCount (mapGet (once e' w' l' s).onceEvents k) w = idCount (mapGet s.onceEvents k) w := by
  by_cases hk : k = e'
  · subst hk
    rw [once_onceGet_same, idCount_setAdd_ne _ _ _ h]
  · rw [once_onceGet_other _ _ _ _ _ hk]

theorem applyOnceRegs_onceGet_count (regs : List (EventName × Nat × Nat)) (s : BusState)
    (k : EventName) (w : Nat) (h : ∀ r ∈ regs, r.2.1 ≠ w) :
    idCount (mapGet (applyOnceRegs regs s).onceEvents k) w
      = idCount (mapGet s.onceEvents k) w := by
  induction regs generalizing s with
  | nil => rfl
  | cons r rs ih =>
    show idCount (mapGet (applyOnceRegs rs (once r.1 r.2.1 r.2.2 s)).onceEvents k) w = _
    rw [ih _ (fun a ha => h a (by simp [ha])),
      once_onceGet_count_ne _ _ _ _ _ _ (h r (by simp))]

theorem runCallback_onceGet_count (env : LEnv) (e : EventName) (m o : Nat) (v : Val)
    (acc : BusState × EmitLog) (k : EventName) (w : Nat)
    (h : ∀ r ∈ (env o).onceRegs, r.2.1 ≠ w) :
    idCount (mapGet (runCallback env e m o v acc).1.onceEvents k) w
      = idCount (mapGet acc.1.onceEvents k) w := by
  rw [runCallback_eq]
  show idCount (mapGet (bumpError (applyOnceRegs (env o).onceRegs acc.1) _).onceEvents k) w = _
  rw [bumpError_onceEvents, applyOnceRegs_onceGet_count _ _ _ _ h]

theorem callPersistent_onceGet_count (env : LEnv) (e : EventName) (v : Val) (ms : IdSet)
    (k : EventName) (w : Nat) (hw : ∀ l r, r ∈ (env l).onceRegs → r.2.1 ≠ w) :
    ∀ acc : BusState × EmitLog,
      idCount (mapGet (callPersistent env e v ms acc).1.onceEvents k) w
        = idCount (mapGet acc.1.onceEvents k) w := by
  induction ms with
  | nil => intro acc; rfl
  | cons l ls ih =>
    intro acc
    show idCount (mapGet (callPersistent env e v ls
        (runCallback env e l l v acc)).1.onceEvents k) w = _
    rw [ih, runCallback_onceGet_count _ _ _ _ _ _ _ _ (fun r hr => hw l r hr)]

theorem off_onceGet_count_le (e : EventName) (l : Nat) (s : BusState) (k : EventName) (w : Nat) :
    idCount (mapGet (off e l s).onceEvents k) w ≤ idCount (mapGet s.onceEvents k) w := by
  by_cases hk : k = e
  · subst hk
    rw [off_once_same]
    exact idCount_setDel_le _ _ _
  · rw [off_once_other _ _ _ _ hk]

theorem onceStep_onceGet_zero (env : LEnv) (e : EventName) (v : Val)
    (acc : BusState × EmitLog) (w' : Nat) (k : EventName) (w : Nat)
    (hw : ∀ l r, r ∈ (env l).onceRegs → r.2.1 ≠ w)
    (h : idCount (mapGet acc.1.onceEvents k) w = 0) :
    idCount (mapGet (onceStep env e v acc w').1.onceEvents k) w = 0 := by
  show idCount (mapGet (runCallback env e w' (origLookup (off e w' acc.1).onceOrig w') v
      (off e w' acc.1, acc.2)).1.onceEvents k) w = 0
  rw [runCallback_onceGet_count _ _ _ _ _ _ _ _ (fun r hr => hw _ r hr)]
  show idCount (mapGet (off e w' acc.1).onceEvents k) w = 0
  have hle := off_onceGet_count_le e w' acc.1 k w
  omega

theorem drainOnce_onceGet_zero (env : LEnv) (e : EventName) (v : Val) (ws : IdSet)
    (k : EventName) (w : Nat) (hw : ∀ l r, r ∈ (env l).onceRegs → r.2.1 ≠ w) :
    ∀ acc : BusState × EmitLog,
      idCount (mapGet acc.1.onceEvents k) w = 0 →
      idCount (mapGet (drainOnce env e v ws acc).1.onceEvents k) w = 0 := by
  induction ws with
  | nil => intro acc h; exact h
  | cons w' rest ih =>
    intro acc h
    exact ih _ (onceStep_onceGet_zero _ _ _ _ _ _ _ hw h)

theorem drainPhase_measure (env : LEnv) (E : EventName) (pv : Val)
    (acc : BusState × EmitLog) (b : Bool) (w : Nat)
    (hw : ∀ l r, r ∈ (env l).onceRegs → r.2.1 ≠ w) :
    memberCount (drainPhase env E pv acc b).log.invoked w
      + idCount (mapGet (drainPhase env E pv acc b).state.onceEvents E) w
      ≤ memberCount acc.2.invoked w + idCount (mapGet acc.1.onceEvents E) w := by
  obtain ⟨t, L⟩ := acc
  simp only [drainPhase]
  split
  · exact Nat.le_refl _
  · rw [drainOnce_memberCount]
    have hzero : idCount (mapGet (drainOnce env E pv (mapGet t.onceEvents E)
        ({ t with onceEvents := mapSet t.onceEvents E [] }, L)).1.onceEvents E) w = 0 := by
      apply drainOnce_onceGet_zero env E pv _ E w hw
      show idCount (mapGet (mapSet t.onceEvents E []) E) w = 0
      rw [mapGet_mapSet_same]
      rfl
    rw [hzero]
    exact Nat.le_refl _

theorem emit_measure (mwEnv : MwEnv) (env : LEnv) (E : EventName) (v : Val)
    (s : BusState) (w : Nat)
    (hw : ∀ l r, r ∈ (env l).onceRegs → r.2.1 ≠ w)
    (hev : w ∉ mapGet s.events E) :
    memberCount (emit mwEnv env E v s).log.invoked w
      + idCount (mapGet (emit mwEnv env E v s).state.onceEvents E) w
      ≤ idCount (mapGet s.onceEvents E) w := by
  have h := drainPhase_measure env E (runMiddleware mwEnv s E v).1
    (callPersistent env E (runMiddleware mwEnv s E v).1 (mapGet s.events E)
      ({ s with totalEventsEmitted := s.totalEventsEmitted + 1, lastEmittedEvent := some E },
       { invoked := [], handlerCalls := [], consoleErrors := (runMiddleware mwEnv s E v).2 }))
    (decide (mapGet s.events E ≠ [])) w hw
  rw [callPersistent_memberCount, callPersistent_onceGet_count env E _ _ E w hw] at h
  refine Nat.le_trans h ?_
  rw [idCount_not_mem _ _ hev]
  simp [memberCount]

theorem emitSeq_memberCount (mwEnv : MwEnv) (env : LEnv) (E : EventName) (vs : List Val)
    (w : Nat) (hw : ∀ l r, r ∈ (env l).onceRegs → r.2.1 ≠ w) :
    ∀ s : BusState, w ∉ mapGet s.events E →
      memberCount (emitSeq mwEnv env E vs s).2 w ≤ idCount (mapGet s.onceEvents E) w := by
  induction vs with
  | nil =>
    intro s hev
    show memberCount [] w ≤ _
    simp [memberCount]
  | cons v rest ih =>
    intro s hev
    show memberCount ((emit mwEnv env E v s).log.invoked
        ++ (emitSeq mwEnv env E rest (emit mwEnv env E v s).state).2) w ≤ _
    rw [memberCount_append]
    have h1 := emit_measure mwEnv env E v s w hw hev
    have hev' : w ∉ mapGet (emit mwEnv env E v s).state.events E :=
      fun hmem => hev (emit_events_mem _ _ _ _ _ _ _ hmem)
    have h2 := ih (emit mwEnv env E v s).state hev'
    omega

end RES

namespace RES

theorem runCallback_onceOrig (env : LEnv) (e : EventName) (m o : Nat) (v : Val)
    (acc : BusState × EmitLog) :
    (runCallback env e m o v acc).1.onceOrig
      = acc.1.onceOrig ++ ((env o).onceRegs.map (fun r => (r.2.1, r.2.2))) := by
  rw [runCallback_eq]
  show (bumpError (applyOnceRegs (env o).onceRegs acc.1) _).onceOrig = _
  rw [bumpError_onceOrig, applyOnceRegs_onceOrig]

theorem onceStep_onceOrig (env : LEnv) (e : EventName) (v : Val)
    (acc : BusState × EmitLog) (w : Nat) :
    (onceStep env e v acc w).1.onceOrig
      = acc.1.onceOrig
        ++ ((env (origLookup acc.1.onceOrig w)).onceRegs.map (fun r => (r.2.1, r.2.2))) := by
  show (runCallback env e w (origLookup (off e w acc.1).onceOrig w) v
      (off e w acc.1, acc.2)).1.onceOrig = _
  rw [runCallback_onceOrig]
  simp only [off_onceOrig]

theorem drainOnce_orig_entries (env : LEnv) (E : EventName) (v : Val) (Q : IdSet)
    (hfresh : ∀ l r, r ∈ (env l).onceRegs → r.2.1 ∉ Q) (base : List (Nat × Nat)) :
    ∀ (ws : IdSet) (acc : BusState × EmitLog) (A : List (Nat × Nat)),
      acc.1.onceOrig = base ++ A →
      (∀ a ∈ A, a.1 ∉ Q) →
      (∀ x ∈ ws, x ∈ Q) →
      ∀ i ∈ (drainOnce env E v ws acc).2.invoked,
        i ∈ acc.2.invoked ∨ ∃ x ∈ ws, i.member = x ∧ i.orig = origLookup base x := by
  intro ws
  induction ws with
  | nil =>
    intro acc A hA hAQ hws i hi
    exact Or.inl hi
  | cons w rest ih =>
    intro acc A hA hAQ hws i hi
    have hwQ : w ∈ Q := hws w (by simp)
    have horig : origLookup acc.1.onceOrig w = origLookup base w := by
      rw [hA]
      exact origLookup_extend base A w (fun a ha hh => hAQ a ha (hh ▸ hwQ))
    have hA' : (onceStep env E v acc w).1.onceOrig
        = base ++ (A ++ ((env (origLookup base w)).onceRegs.map (fun r => (r.2.1, r.2.2)))) := by
      rw [onceStep_onceOrig, horig, hA, List.append_assoc]
    have hAQ' : ∀ a ∈ A ++ ((env (origLookup base w)).onceRegs.map (fun r => (r.2.1, r.2.2))),
        a.1 ∉ Q := by
      intro a ha
      rcases List.mem_append.1 ha with h1 | h2
      · exact hAQ a h1
      · obtain ⟨r, hr, hre⟩ := List.mem_map.1 h2
        rw [← hre]
        exact hfresh _ r hr
    have hi' : i ∈ (drainOnce env E v rest (onceStep env E v acc w)).2.invoked := hi
    rcases ih (onceStep env E v acc w) _ hA' hAQ'
        (fun x hx => hws x (by simp [hx])) i hi' with hmem | ⟨x, hx, hxm, hxo⟩
    · rw [onceStep_snd] at hmem
      rcases List.mem_append.1 hmem with h1 | h2
      · exact Or.inl h1
      · have heq : i = ⟨w, origLookup acc.1.onceOrig w, v⟩ := by simpa using h2
        right
        refine ⟨w, by simp, ?_, ?_⟩
        · rw [heq]
        · rw [heq]
          show origLookup acc.1.onceOrig w = origLookup base w
          exact horig
    · exact Or.inr ⟨x, by simp [hx], hxm, hxo⟩

theorem drainPhase_invoked (env : LEnv) (E : EventName) (pv : Val)
    (acc : BusState × EmitLog) (b : Bool)
    (hfresh : ∀ l r, r ∈ (env l).onceRegs → r.2.1 ∉ mapGet acc.1.onceEvents E) :
    ∀ i ∈ (drainPhase env E pv acc b).log.invoked,
      i ∈ acc.2.invoked
      ∨ ∃ x ∈ mapGet acc.1.onceEvents E, i.member = x ∧ i.orig = origLookup acc.1.onceOrig x := by
  obtain ⟨t, L⟩ := acc
  simp only [drainPhase]
  split
  · intro i hi
    exact Or.inl hi
  · intro i hi
    exact drainOnce_orig_entries env E pv (mapGet t.onceEvents E) hfresh t.onceOrig
      (mapGet t.onceEvents E) ({ t with onceEvents := mapSet t.onceEvents E [] }, L) []
      (by simp) (by simp) (fun x hx => hx) i hi

/-- Claim C4: (1) for every wrapper registered via `once`, at most one
invocation across any sequence of emissions of the event has that wrapper as
its member — provided no callback re-registers the same wrapper identity (in
the source each `once` call creates a fresh closure), the wrapper is not also
a persistent listener, and it is initially registered at most once; (2) the
live once-set is cleared before the snapshot is invoked, so a listener that
re-subscribes `g` via `once` during its own callback does not have `g`
invoked by that same emission (for fresh wrapper identities, `g` neither a
persistent listener nor the original of a pending wrapper). -/
theorem claim4_once_fires_at_most_once :
    (∀ (mwEnv : MwEnv) (env : LEnv) (E : EventName) (vs : List Val) (s : BusState) (w : Nat),
      (∀ l r, r ∈ (env l).onceRegs → r.2.1 ≠ w) →
      w ∉ mapGet s.events E →
      idCount (mapGet s.onceEvents E) w ≤ 1 →
      memberCount (emitSeq mwEnv env E vs s).2 w ≤ 1)
    ∧ (∀ (mwEnv : MwEnv) (env : LEnv) (e : EventName) (v : Val) (s : BusState) (g : Nat),
      (∀ l ∈ mapGet s.events e, (env l).onceRegs = []) →
      g ∉ mapGet s.events e →
      (∀ x ∈ mapGet s.onceEvents e, origLookup s.onceOrig x ≠ g) →
      (∀ l r, r ∈ (env l).onceRegs → r.2.1 ∉ mapGet s.onceEvents e) →
      ∀ i ∈ (emit mwEnv env e v s).log.invoked, i.orig ≠ g) := by
  constructor
  · intro mwEnv env E vs s w hw hev hQ
    exact Nat.le_trans (emitSeq_memberCount mwEnv env E vs w hw s hev) hQ
  · intro mwEnv env e v s g Hp Hg1 Hg2 Hfresh i hi
    have hi' : i ∈ (drainPhase env e (runMiddleware mwEnv s e v).1
        (callPersistent env e (runMiddleware mwEnv s e v).1 (mapGet s.events e)
          ({ s with totalEventsEmitted := s.totalEventsEmitted + 1, lastEmittedEvent := some e },
           { invoked := [], handlerCalls := [], consoleErrors := (runMiddleware mwEnv s e v).2 }))
        (decide (mapGet s.events e ≠ []))).log.invoked := hi
    rw [callPersistent_char env e _ _ _ Hp] at hi'
    have hmem := drainPhase_invoked env e (runMiddleware mwEnv s e v).1 _
      (decide (mapGet s.events e ≠ []))
      (by
        intro l r hr
        simpa only [bumpError_onceEvents] using Hfresh l r hr)
      i hi'
    rcases hmem with hper | ⟨x, hx, hxm, hxo⟩
    · simp only [List.nil_append, List.mem_map] at hper
      obtain ⟨l, hl, hle⟩ := hper
      intro hcontra
      apply Hg1
      rw [← hle] at hcontra
      simp only at hcontra
      rw [← hcontra]
      exact hl
    · have hx' : x ∈ mapGet s.onceEvents e := by
        simpa only [bumpError_onceEvents] using hx
      have hxo' : i.orig = origLookup s.onceOrig x := by
        simpa only [bumpError_onceOrig] using hxo
      rw [hxo']
      exact Hg2 x hx'

end RES

namespace RES

/-- Witness for claim C4: on a bus with pending wrapper 10 (original 5),
where listener 5 re-subscribes listener 6 under fresh wrapper 11 during its
own callback, wrapper 10 fires at most once across two emissions, and the
invocation `⟨10, 5, 9⟩` produced by the draining emission does not run
listener 6. -/
theorem claim4_witness :
    memberCount (emitSeq inertMw envC4 evTick [1, 2] sC4).2 10 ≤ 1
    ∧ (Invocation.mk 10 5 9).orig ≠ 6 := by
  constructor
  · refine claim4_once_fires_at_most_once.1 inertMw envC4 evTick [1, 2] sC4 10 ?_ ?_ ?_
    · intro l r hr
      by_cases hl : l = 5
      · subst hl
        simp only [envC4, if_pos rfl] at hr
        have hre : r = (evTick, 11, 6) := by simpa using hr
        subst hre
        decide
      · simp [envC4, hl, inertBeh] at hr
    · decide
    · decide
  · refine claim4_once_fires_at_most_once.2 inertMw envC4 evTick 9 sC4 6
      ?_ ?_ ?_ ?_ ⟨10, 5, 9⟩ ?_
    · intro l hl
      rw [show mapGet sC4.events evTick = [] from rfl] at hl
      exact absurd hl (List.not_mem_nil l)
    · decide
    · intro x hx
      rw [show mapGet sC4.onceEvents evTick = [10] from rfl] at hx
      have hx10 : x = 10 := by simpa using hx
      subst hx10
      decide
    · intro l r hr
      by_cases hl : l = 5
      · subst hl
        simp only [envC4, if_pos rfl] at hr
        have hre : r = (evTick, 11, 6) := by simpa using hr
        subst hre
        decide
      · simp [envC4, hl, inertBeh] at hr
    · decide

end RES
